import Mathlib

/-
  Verification of the claim-and-schedule workflow engine of the
  slack-deep-research repository.

  The embedding models strings as `List Char`, the persistent item store as a
  `List Msg` (one entry per row of the SlackMessage table, in table order), and
  the stateful steps of `orchestrator.py` / `orchestrator_concurrent.py` as
  explicit state-passing functions.  Names follow the Python source where Lean
  allows it.
-/

namespace SlackDeepResearch

/-! ## Basic string operations (Python `str` semantics over `List Char`) -/

/-- Python `str.lower()` restricted to the characters that occur here (ASCII). -/
def lowerL (s : List Char) : List Char := s.map Char.toLower

/-- `listStartsWith p s` is true when `p` is a prefix of `s`. -/
def listStartsWith : List Char → List Char → Bool
  | [], _ => true
  | _ :: _, [] => false
  | p :: ps, c :: cs => (p = c) && listStartsWith ps cs

/-- Python's substring test `pat in s`. -/
def containsSub (pat : List Char) : List Char → Bool
  | [] => pat.isEmpty
  | c :: r => listStartsWith pat (c :: r) || containsSub pat r

/-- Helper of `splitOnNl`: `cur` accumulates the current piece in reverse
(the accumulator keeps kernel evaluation shallow). -/
def splitOnNlAux (cur : List Char) : List Char → List (List Char)
  | [] => [cur.reverse]
  | c :: r =>
    if c = '\n' then cur.reverse :: splitOnNlAux [] r
    else splitOnNlAux (c :: cur) r

/-- Python `s.split('\n')`: always at least one piece, empty pieces kept. -/
def splitOnNl (s : List Char) : List (List Char) := splitOnNlAux [] s

/-! ## Data model: one row of the `SlackMessage` table -/

/-- A work item (row of the SlackMessage table).  `ts` is the primary key,
`sent` the `sent_datetime` ordering timestamp, `processed` the claimed flag
and `report_sent` the `report_sent_to_slack` delivery flag. -/
structure Msg where
  ts : Nat
  sent : Nat
  text : List Char
  processed : Bool
  is_bot : Bool
  report_sent : Bool
deriving DecidableEq, Repr

/-- The item store: the SlackMessage table in table (insertion) order. -/
abbrev Store := List Msg

/-- The filter of the claim query:
`SlackMessage.processed == False, SlackMessage.is_bot == False`. -/
def eligible (m : Msg) : Bool := !m.processed && !m.is_bot

/-- First element attaining the minimal `sent` value (the row returned by
`order_by(sent_datetime.asc()).first()`; the SQL query has no secondary sort
key, so ties are resolved by table order, which this stable minimum models). -/
def argminSent : List Msg → Option Msg
  | [] => none
  | m :: r =>
    match argminSent r with
    | none => some m
    | some m2 => if m2.sent < m.sent then some m2 else some m

/-- The claim query of both orchestrator variants. -/
def selectOldest (s : Store) : Option Msg := argminSent (s.filter eligible)

/-- The fixed `system_message_patterns` list (identical in both variants). -/
def system_message_patterns : List (List Char) :=
  [("has joined the channel").toList,
   ("has left the channel").toList,
   ("set the channel topic").toList,
   ("set the channel description").toList,
   ("pinned a message").toList,
   ("unpinned a message").toList,
   ("archived the channel").toList,
   ("unarchived the channel").toList,
   ("renamed the channel").toList,
   ("set the channel purpose").toList,
   ("cleared the channel topic").toList,
   ("cleared the channel purpose").toList]

/-- `any(pattern in message.text.lower() for pattern in system_message_patterns)`. -/
def isSystemMessage (m : Msg) : Bool :=
  system_message_patterns.any (fun p => containsSub p (lowerL m.text))

/-- `message.processed = True; commit()` — the update is keyed by the primary
key `ts`. -/
def markProcessed (s : Store) (t : Nat) : Store :=
  s.map fun m => if m.ts = t then { m with processed := true } else m

/-- `step2_get_oldest_unprocessed_message` of `orchestrator.py`: select the
oldest eligible row; a system message is marked processed and the function
recurses to the next candidate; a non-system row is returned unmarked.
The Python recursion is unbounded; its depth is at most the number of
eligible rows, which the `fuel` parameter makes explicit. -/
def step2_get_oldest_unprocessed_message : Nat → Store → Option Msg × Store
  | 0, s => (none, s)
  | fuel + 1, s =>
    match selectOldest s with
    | none => (none, s)
    | some m =>
      if isSystemMessage m then
        step2_get_oldest_unprocessed_message fuel (markProcessed s m.ts)
      else (some m, s)

/-- `step2_get_and_lock_unprocessed_message` of `orchestrator_concurrent.py`,
the body executed while the file lock is held: select the oldest eligible row;
a system message is marked processed and `None` is returned; otherwise the row
is immediately marked processed (the lock) and a detached snapshot returned. -/
def step2_get_and_lock_unprocessed_message (s : Store) : Option Msg × Store :=
  match selectOldest s with
  | none => (none, s)
  | some m =>
    if isSystemMessage m then (none, markProcessed s m.ts)
    else (some m, markProcessed s m.ts)

/-! ## Query escaping (`step3_generate_deep_research`) -/

/-- Python `s.replace(c, repl)` for a one-character needle: every occurrence
of `c` is replaced, left to right — exactly a character-wise expansion. -/
def pyReplaceChar (c : Char) (repl : List Char) : List Char → List Char
  | [] => []
  | x :: r => (if x = c then repl else [x]) ++ pyReplaceChar c repl r

/-- The escaping of `orchestrator.py` (lines 213-217): backslash first, then
double quote, newline, carriage return, tab. -/
def escape_query (q : List Char) : List Char :=
  pyReplaceChar '\t' ['\\', 't']
    (pyReplaceChar '\r' ['\\', 'r']
      (pyReplaceChar '\n' ['\\', 'n']
        (pyReplaceChar '"' ['\\', '"']
          (pyReplaceChar '\\' ['\\', '\\'] q))))

/-- The escaping of `orchestrator_concurrent.py` (line 201): only the double
quote is escaped. -/
def escape_query_concurrent (q : List Char) : List Char :=
  pyReplaceChar '"' ['\\', '"'] q

/-- Modelled from the spec: the external collaborator's syntax rules, i.e. the
meaning of a single-character escape inside a JavaScript double-quoted string
literal (unknown escapes denote the escaped character itself). -/
def unescapeJsChar (c : Char) : Char :=
  if c = 'n' then '\n'
  else if c = 'r' then '\r'
  else if c = 't' then '\t'
  else if c = 'b' then '\x08'
  else if c = 'f' then '\x0c'
  else if c = 'v' then '\x0b'
  else if c = '0' then '\x00'
  else c

/-- Modelled from the spec: unescaping by the external (JavaScript string
literal) syntax rules.  A trailing lone backslash is malformed in JavaScript;
it is kept verbatim here and never arises from the escapers on the inputs
used below. -/
def unescapeJs : List Char → List Char
  | [] => []
  | c :: r =>
    if c = '\\' then
      match r with
      | [] => [c]
      | c2 :: r2 => unescapeJsChar c2 :: unescapeJs r2
    else c :: unescapeJs r

/-- The per-character expansion that the chained `replace` calls of
`orchestrator.py` amount to (proved below, `escape_query_cons`). -/
def escapeStep (x : Char) : List Char :=
  if x = '\\' then ['\\', '\\']
  else if x = '"' then ['\\', '"']
  else if x = '\n' then ['\\', 'n']
  else if x = '\r' then ['\\', 'r']
  else if x = '\t' then ['\\', 't']
  else [x]

/-! ## Completeness heuristic (`_is_report_incomplete`, orchestrator.py 410-439) -/

/-- The fixed `incomplete_indicators` list. -/
def incomplete_indicators : List (List Char) :=
  [("Generating report").toList,
   ("Please wait").toList,
   ("Processing").toList,
   ("Loading").toList,
   ("Analyzing sources").toList,
   ("Research in progress").toList,
   ("Starting research").toList]

/-- `'http' in line or 'www.' in line`. -/
def isLinkLine (l : List Char) : Bool :=
  containsSub (("http").toList) l || containsSub (("www.").toList) l

/-- The IEEE-754 binary64 value of the Python literal `0.7`, in units of
`2^-53`: `0.7 * 2^53 = 6305039478318694.4` rounds to this significand. -/
def double07units : Nat := 6305039478318694

/-- Fuelled binary logarithm (structural recursion, so that the kernel can
evaluate it); `log2floor n` is the floor of `log2 n` for `n ≥ 1`, since the
argument halves at every step. -/
def log2Aux : Nat → Nat → Nat
  | 0, _ => 0
  | fuel + 1, n => if n ≥ 2 then log2Aux fuel (n / 2) + 1 else 0

def log2floor (n : Nat) : Nat := log2Aux n n

/-- Round a positive value `a` (in units of `2^-53`) to the binary64 grid,
nearest, ties to even.  For `a < 2^53` the grid spacing at this scale is at
most one unit, so `a` is exact; above that the spacing is `2^(log2 a - 52)`. -/
def roundDouble (a : Nat) : Nat :=
  if a = 0 then 0
  else
    let e := log2floor a
    if e ≤ 52 then a
    else
      let g := 2 ^ (e - 52)
      let q := a / g
      let r := a % g
      if 2 * r < g then q * g
      else if 2 * r > g then (q + 1) * g
      else if q % 2 = 0 then q * g else (q + 1) * g

/-- The Python comparison `source_lines > len(lines) * 0.7`: the product is a
correctly rounded binary64 multiplication (`n` is exact as a double for the
sizes that occur), and Python compares an int with a float by exact value. -/
def gtTimes07 (source n : Nat) : Bool :=
  source * 2 ^ 53 > roundDouble (n * double07units)

/-- `_is_report_incomplete` of `orchestrator.py`: short reports, reports
containing an in-progress phrase (case-insensitively), and link-dump reports
(more than 10 lines, link lines exceeding `len(lines) * 0.7`) are incomplete. -/
def is_report_incomplete (report_content : List Char) : Bool :=
  if report_content.length < 1000 then true
  else if incomplete_indicators.any
      (fun ind => containsSub (lowerL ind) (lowerL report_content)) then true
  else
    let lines := splitOnNl report_content
    let source_lines := (lines.filter isLinkLine).length
    if lines.length > 10 && gtTimes07 source_lines lines.length then true
    else false

/-- The classifier as claimed: rule (c) read with exact arithmetic, i.e.
strictly more than 70 percent of the lines are link lines. -/
def incompleteClaimed (report_content : List Char) : Bool :=
  decide (report_content.length < 1000) ||
  incomplete_indicators.any
      (fun ind => containsSub (lowerL ind) (lowerL report_content)) ||
  (decide ((splitOnNl report_content).length > 10) &&
   decide (10 * ((splitOnNl report_content).filter isLinkLine).length >
           7 * (splitOnNl report_content).length))

/-- The classifier with rule (c) exactly as the code computes it (binary64
product); the amended form of the claim. -/
def incompleteAmended (report_content : List Char) : Bool :=
  decide (report_content.length < 1000) ||
  incomplete_indicators.any
      (fun ind => containsSub (lowerL ind) (lowerL report_content)) ||
  (decide ((splitOnNl report_content).length > 10) &&
   gtTimes07 ((splitOnNl report_content).filter isLinkLine).length
     (splitOnNl report_content).length)

/-! ## Delivery sink (`send_report_to_slack`, orchestrator.py 441-506) -/

def max_chunk_size : Nat := 35000

/-- The fixed header prefix of the first message. -/
def header_message : List Char :=
  ("Deep Research Report completed (splitleaseteam@gmail.com)\n\n").toList

/-- `num_parts = (report_size // max_chunk_size) + (1 if report_size % max_chunk_size else 0)`. -/
def num_parts (report_size : Nat) : Nat :=
  report_size / max_chunk_size + (if report_size % max_chunk_size = 0 then 0 else 1)

/-- The continuation marker `f"[Part {i}/{n}]\n\n"` (with `i` already 1-based). -/
def partMarker (i n : Nat) : List Char :=
  ("[Part ").toList ++ (Nat.repr i).toList ++ ['/'] ++ (Nat.repr n).toList ++
    ("]\n\n").toList

/-- The texts of the Slack messages sent by `send_report_to_slack`, in order:
one header-prefixed message when the report fits, otherwise
`num_parts` slices of `max_chunk_size`, the first with the header, the rest
with `[Part i/N]` markers. -/
def send_report_to_slack (report_content : List Char) : List (List Char) :=
  if report_content.length ≤ max_chunk_size then
    [header_message ++ report_content]
  else
    (List.range (num_parts report_content.length)).map fun i =>
      let chunk := (report_content.drop (i * max_chunk_size)).take max_chunk_size
      if i = 0 then header_message ++ chunk
      else partMarker (i + 1) (num_parts report_content.length) ++ chunk

/-- Length of the injected prefix of delivered message number `i`. -/
def chunkPrefixLen (report_size i : Nat) : Nat :=
  if report_size ≤ max_chunk_size ∨ i = 0 then header_message.length
  else (partMarker (i + 1) (num_parts report_size)).length

/-- Concatenation of all delivered messages with the injected header/marker
prefixes stripped. -/
def strippedConcat (report_content : List Char) : List Char :=
  ((send_report_to_slack report_content).enum.map
    (fun p => p.2.drop (chunkPrefixLen report_content.length p.1))).flatten

/-! ## Deferred retry engine (`step5_retrieve_and_send_report`, orchestrator.py) -/

/-- Outcome of one invocation of the external retrieval step: the external
process succeeded and a report file was read, no report file was found, or
the process failed (non-zero exit or exception). -/
inductive FetchRes where
  | ok (content : List Char)
  | noFiles
  | err
deriving DecidableEq, Repr

/-- Observable events of the retry engine. -/
inductive Ev where
  | fetch
  | retryIn (seconds : Nat)
  | logPartial
  | deliver (content : List Char)
deriving DecidableEq, Repr

/-- The chain of `step5_retrieve_and_send_report` calls, as the list of events
it produces:  each call fetches; an incomplete report is retried after 300
seconds while `retry_count < max_retries`, and on exhaustion the partial
report is logged as such and delivered anyway; a complete report is
delivered; a failed or empty fetch is retried without delivery and silently
dropped on exhaustion. -/
def step5_retrieve_and_send_report (fetch : Nat → FetchRes) (max_retries : Nat) :
    Nat → List Ev := fun retry_count =>
  Ev.fetch ::
    match fetch retry_count with
    | .ok content =>
      if is_report_incomplete content then
        if h : retry_count < max_retries then
          Ev.retryIn 300 :: step5_retrieve_and_send_report fetch max_retries (retry_count + 1)
        else [Ev.logPartial, Ev.deliver content]
      else [Ev.deliver content]
    | .noFiles =>
      if h : retry_count < max_retries then
        Ev.retryIn 300 :: step5_retrieve_and_send_report fetch max_retries (retry_count + 1)
      else []
    | .err =>
      if h : retry_count < max_retries then
        Ev.retryIn 300 :: step5_retrieve_and_send_report fetch max_retries (retry_count + 1)
      else []
  termination_by retry_count => max_retries + 1 - retry_count
  decreasing_by all_goals omega

/-- One invocation of `step5_retrieve_and_send_report` viewed through the
`pending_reports` map: whether a retry timer was armed, whether a report was
delivered, and whether the url is still in `pending_reports` after the
`finally` block, whose removal condition is
`retry_count >= max_retries or (url in pending_reports and retry_count == 0)`. -/
structure Step5Out where
  scheduled : Bool
  delivered : Option (List Char)
  partialLogged : Bool
  pendingAfter : Bool
deriving DecidableEq, Repr

def step5Call (res : FetchRes) (retry_count max_retries : Nat) (inPending : Bool) :
    Step5Out :=
  let removed := decide (retry_count ≥ max_retries) ||
    (inPending && decide (retry_count = 0))
  let pendingAfter := inPending && !removed
  match res with
  | .ok content =>
    if is_report_incomplete content then
      if retry_count < max_retries then
        ⟨true, none, false, pendingAfter⟩
      else ⟨false, some content, true, pendingAfter⟩
    else ⟨false, some content, false, pendingAfter⟩
  | .noFiles =>
    if retry_count < max_retries then ⟨true, none, false, pendingAfter⟩
    else ⟨false, none, false, pendingAfter⟩
  | .err =>
    if retry_count < max_retries then ⟨true, none, false, pendingAfter⟩
    else ⟨false, none, false, pendingAfter⟩

/-! ## Workflow passes (`run_workflow` of both variants) -/

/-- Flags of the item with key `t`: some item with that key is processed. -/
def itemProcessed (s : Store) (t : Nat) : Bool :=
  s.any fun m => m.ts == t && m.processed

/-- Some item with key `t` has had its report delivered
(`report_sent_to_slack`). -/
def itemDelivered (s : Store) (t : Nat) : Bool :=
  s.any fun m => m.ts == t && m.report_sent

/-- The synchronous part of `run_workflow` in `orchestrator.py`: claim, then
launch the job with the claimed item; on launch success the item is marked
processed (`mark_message_processed(..., success=True)`) and retrieval is
scheduled (deferred, so the store is otherwise untouched in this pass); on
launch failure the item is deliberately not marked, so it is retried on the
next full pass. -/
structure PassOut where
  launched : Option Msg
  store : Store
deriving Repr

def run_workflow (s : Store) (launch : Msg → Option Nat) (fuel : Nat) : PassOut :=
  match step2_get_oldest_unprocessed_message fuel s with
  | (none, s1) => ⟨none, s1⟩
  | (some m, s1) =>
    match launch m with
    | none => ⟨some m, s1⟩
    | some _ => ⟨some m, markProcessed s1 m.ts⟩

/-- The synchronous part of `run_workflow` in `orchestrator_concurrent.py`:
the claim step already marked the item processed; launch failure performs no
rollback, and on success delivery is deferred, so the pass leaves the store
as the claim step left it. -/
def run_workflow_concurrent (s : Store) (launch : Msg → Option Nat) : PassOut :=
  match step2_get_and_lock_unprocessed_message s with
  | (none, s1) => ⟨none, s1⟩
  | (some m, s1) =>
    match launch m with
    | none => ⟨some m, s1⟩
    | some _ => ⟨some m, s1⟩

/-! ## Serialized concurrent claim attempts (concurrent variant) -/

/-- One claim attempt of one worker process: the file lock either times out
(no store access at all) or serializes the whole body of
`step2_get_and_lock_unprocessed_message`, which therefore runs atomically. -/
inductive Outcome where
  | timeout
  | run
deriving DecidableEq, Repr

def applyOutcome : Outcome → Store → Store
  | .timeout, s => s
  | .run, s => (step2_get_and_lock_unprocessed_message s).2

/-- The value each attempt returns to its worker (`None` on lock timeout). -/
def resultsOf : List Outcome → Store → List (Option Msg)
  | [], _ => []
  | o :: os, s =>
    (match o with
     | .timeout => none
     | .run => (step2_get_and_lock_unprocessed_message s).1) ::
      resultsOf os (applyOutcome o s)

def finalStore : List Outcome → Store → Store
  | [], s => s
  | o :: os, s => finalStore os (applyOutcome o s)

/-- Number of attempts that transition the processed flag of item `t` from
false to true. -/
def flips : List Outcome → Store → Nat → Nat
  | [], _, _ => 0
  | o :: os, s, t =>
    (if !itemProcessed s t && itemProcessed (applyOutcome o s) t then 1 else 0) +
      flips os (applyOutcome o s) t

/-- Number of attempts whose returned item has key `t`. -/
def claimsCount (rs : List (Option Msg)) (t : Nat) : Nat :=
  rs.countP fun r =>
    match r with
    | some m => m.ts == t
    | none => false

/-! ## Derived predicates used in the statements -/

/-- Some item with key `t` exists in the store. -/
def hasItem (s : Store) (t : Nat) : Bool := s.any fun m => m.ts == t

/-- Every item with key `t` (if any) is processed: once this holds, no claim
attempt can ever return an item with key `t` again. -/
def allMarked (s : Store) (t : Nat) : Bool :=
  s.all fun m => !(m.ts == t) || m.processed

/-- Eligible and not a system message: the rows a claim pass may hand to the
caller. -/
def eligibleNS (m : Msg) : Bool := eligible m && !isSystemMessage m

/-- The item the claim operation is specified to return: the first, in table
order, of the eligible non-system rows of minimal `sent`. -/
def selectOldestNS (s : Store) : Option Msg := argminSent (s.filter eligibleNS)

/-! ## Concrete inputs for the counterexamples and witnesses -/

def exMsgTie2 : Msg := ⟨2, 5, ("research alpha").toList, false, false, false⟩

def exMsgTie1 : Msg := ⟨1, 5, ("research beta").toList, false, false, false⟩

/-- Two eligible non-system items with equal `sent`; the smaller identity
(`ts = 1`) sits later in table order. -/
def exTieStore : Store := [exMsgTie2, exMsgTie1]

def exSysMsg : Msg := ⟨1, 1, ("X has joined the channel").toList, false, false, false⟩

def exUserMsg : Msg := ⟨2, 2, ("Please research quantum computing").toList, false, false, false⟩

/-- The oldest eligible item is a system notification; an eligible non-system
item is also present. -/
def exSysFirstStore : Store := [exSysMsg, exUserMsg]

def exSysStore : Store := [exSysMsg]

/-- A genuine user request that merely mentions a notification phrase. -/
def exMentionMsg : Msg :=
  ⟨3, 3, ("Please research which users has joined the channel recently").toList,
   false, false, false⟩

def exMentionStore : Store := [exMentionMsg]

def exLaunchMsg : Msg := ⟨7, 3, ("Research quantum computing").toList, false, false, false⟩

def exLaunchStore : Store := [exLaunchMsg]

/-- A line containing a URL-like substring, and one without. -/
def exLinkLine : List Char := ("http aaaaaaa").toList

def exPlainLine : List Char := ("bbbbbbbbbbb").toList

/-- 90 lines, exactly 63 of which (70 percent) contain a link; more than 1000
characters in total, no in-progress phrase. -/
def exLinkDump : List Char :=
  List.intercalate ['\n']
    (List.replicate 63 exLinkLine ++ List.replicate 27 exPlainLine)

/-! # Theorems -/

/-! ## Query escaping -/

lemma pyReplaceChar_append (c : Char) (repl : List Char) :
    ∀ a b : List Char,
      pyReplaceChar c repl (a ++ b) = pyReplaceChar c repl a ++ pyReplaceChar c repl b
  | [], _ => rfl
  | x :: r, b => by simp [pyReplaceChar, pyReplaceChar_append c repl r]

lemma escape_query_cons (x : Char) (q : List Char) :
    escape_query (x :: q) = escapeStep x ++ escape_query q := by
  unfold escape_query escapeStep
  by_cases h1 : x = '\\'
  · subst h1; simp [pyReplaceChar, pyReplaceChar_append]
  by_cases h2 : x = '"'
  · subst h2; simp [pyReplaceChar, pyReplaceChar_append]
  by_cases h3 : x = '\n'
  · subst h3; simp [pyReplaceChar, pyReplaceChar_append]
  by_cases h4 : x = '\r'
  · subst h4; simp [pyReplaceChar, pyReplaceChar_append]
  by_cases h5 : x = '\t'
  · subst h5; simp [pyReplaceChar, pyReplaceChar_append]
  · simp [pyReplaceChar, pyReplaceChar_append, h1, h2, h3, h4, h5]

lemma unescape_escapeStep (x : Char) (t : List Char) :
    unescapeJs (escapeStep x ++ t) = x :: unescapeJs t := by
  unfold escapeStep
  by_cases h1 : x = '\\'
  · subst h1; simp [unescapeJs, unescapeJsChar]
  by_cases h2 : x = '"'
  · subst h2; simp [unescapeJs, unescapeJsChar]
  by_cases h3 : x = '\n'
  · subst h3; simp [unescapeJs, unescapeJsChar]
  by_cases h4 : x = '\r'
  · subst h4; simp [unescapeJs, unescapeJsChar]
  by_cases h5 : x = '\t'
  · subst h5; simp [unescapeJs, unescapeJsChar]
  · simp only [if_neg h1, if_neg h2, if_neg h3, if_neg h4, if_neg h5,
      List.singleton_append]
    rw [unescapeJs.eq_def]
    simp [h1]

/-- C3: in `orchestrator.py` the escaping (backslash first, then quote,
newline, carriage return, tab) round-trips through the external JavaScript
string-literal rules for every query; but `orchestrator_concurrent.py`
escapes only the double quote, so the two-character query backslash-`n`
reaches the script unescaped and unescapes to a newline instead of the
original text. -/
theorem escape_roundtrip_and_concurrent_gap :
    (∀ q : List Char, unescapeJs (escape_query q) = q) ∧
    escape_query_concurrent ['\\', 'n'] = ['\\', 'n'] ∧
    unescapeJs (escape_query_concurrent ['\\', 'n']) = ['\n'] := by
  refine ⟨?_, by decide, by decide⟩
  intro q
  induction q with
  | nil => rfl
  | cons x r ih => rw [escape_query_cons, unescape_escapeStep, ih]

/-! ## Pending-task lifecycle -/

set_option maxRecDepth 40000 in
/-- C9: evaluation of the `finally` block of `step5_retrieve_and_send_report`
at the failing inputs.  With `max_retries = 3`: the first call (retry 0) on
an incomplete report arms a retry yet removes the url from `pending_reports`;
a later call (retry 1) that delivers a complete report leaves the url in
`pending_reports`.  Both contradict "destroyed exactly when delivery succeeds
or retries are exhausted" (and the source's own comment "Only remove from
pending reports if we're done"). -/
theorem pending_lifecycle_bug_eval :
    (step5Call (.ok (("too short").toList)) 0 3 true).scheduled = true ∧
    (step5Call (.ok (("too short").toList)) 0 3 true).pendingAfter = false ∧
    (step5Call (.ok (List.replicate 1000 'a')) 1 3 true).delivered =
      some (List.replicate 1000 'a') ∧
    (step5Call (.ok (List.replicate 1000 'a')) 1 3 true).pendingAfter = true := by
  refine ⟨by decide, by decide, ?_, ?_⟩ <;> decide

/-! ## Completeness heuristic -/

set_option maxRecDepth 40000 in
/-- C5: counterexample.  `exLinkDump` has 90 lines of which exactly 63 (70
percent, not more) contain a URL-like substring, is over 1000 characters long
and contains no in-progress phrase, yet `_is_report_incomplete` classifies it
incomplete: the code compares against the binary64 product `90 * 0.7 =
62.99999999999999`, not against the exact 70 percent threshold of the claim. -/
theorem heuristic_float_boundary_cex :
    is_report_incomplete exLinkDump = true ∧
    incompleteClaimed exLinkDump = false ∧
    (splitOnNl exLinkDump).length = 90 ∧
    ((splitOnNl exLinkDump).filter isLinkLine).length = 63 ∧
    1000 ≤ exLinkDump.length := by
  refine ⟨?_, ?_, ?_, ?_, ?_⟩ <;> decide

set_option maxRecDepth 40000 in
/-- C5 (amended): `_is_report_incomplete` returns true exactly when the text
is shorter than 1000 characters, or contains an in-progress phrase
case-insensitively, or has more than 10 lines with the link-line count
exceeding the binary64 product `len(lines) * 0.7` (which agrees with "more
than 70 percent" except where that product rounds below an exact multiple);
in particular a 999-character text is incomplete and a 1000-character text
with no phrase and below-threshold link lines is complete. -/
theorem heuristic_rules_amended :
    (∀ content : List Char, is_report_incomplete content = incompleteAmended content) ∧
    is_report_incomplete (List.replicate 999 'a') = true ∧
    is_report_incomplete (List.replicate 1000 'a') = false := by
  refine ⟨?_, by decide, by decide⟩
  intro content
  unfold is_report_incomplete incompleteAmended
  by_cases h1 : content.length < 1000
  · simp [h1]
  by_cases h2 : incomplete_indicators.any
      (fun ind => containsSub (lowerL ind) (lowerL content)) = true
  · simp [h1, h2]
  · simp only [Bool.not_eq_true] at h2
    simp [h1, h2]

/-! ## Retry exhaustion -/

/-- C2: with `max_retries = 3` and every fetch returning a report classified
incomplete, `step5_retrieve_and_send_report` performs exactly 4 fetch
attempts (the initial one plus 3 retries, each rescheduled after the fixed
300-second delay), and after the last attempt logs the partial-report warning
and delivers the last fetched content rather than discarding it. -/
theorem retry_exhaustion_four_fetches (fetch : Nat → FetchRes)
    (c0 c1 c2 c3 : List Char)
    (h0 : fetch 0 = .ok c0) (h1 : fetch 1 = .ok c1)
    (h2 : fetch 2 = .ok c2) (h3 : fetch 3 = .ok c3)
    (i0 : is_report_incomplete c0 = true) (i1 : is_report_incomplete c1 = true)
    (i2 : is_report_incomplete c2 = true) (i3 : is_report_incomplete c3 = true) :
    step5_retrieve_and_send_report fetch 3 0 =
      [Ev.fetch, Ev.retryIn 300, Ev.fetch, Ev.retryIn 300, Ev.fetch, Ev.retryIn 300,
       Ev.fetch, Ev.logPartial, Ev.deliver c3] := by
    rw [step5_retrieve_and_send_report, h0]
    simp only [i0, if_true, Nat.zero_lt_succ, dif_pos, Nat.lt_irrefl, dif_neg]
    rw [step5_retrieve_and_send_report, h1]
    simp only [i1, if_true]
    rw [step5_retrieve_and_send_report, h2]
    simp only [i2, if_true]
    rw [step5_retrieve_and_send_report, h3]
    simp only [i3, if_true]
    norm_num

/-- Witness for C2 at a concrete fetch sequence: every attempt returns the
two-character report, which is incomplete (shorter than 1000 characters). -/
theorem retry_exhaustion_four_fetches_witness :
    step5_retrieve_and_send_report (fun _ => FetchRes.ok (("hi").toList)) 3 0 =
      [Ev.fetch, Ev.retryIn 300, Ev.fetch, Ev.retryIn 300, Ev.fetch, Ev.retryIn 300,
       Ev.fetch, Ev.logPartial, Ev.deliver (("hi").toList)] :=
  retry_exhaustion_four_fetches (fun _ => FetchRes.ok (("hi").toList))
    (("hi").toList) (("hi").toList) (("hi").toList) (("hi").toList)
    rfl rfl rfl rfl (by decide) (by decide) (by decide) (by decide)

/-! ## The claim query: properties of `argminSent` -/

lemma argminSent_eq_none {l : List Msg} : argminSent l = none ↔ l = [] := by
  cases l with
  | nil => simp [argminSent]
  | cons m r =>
    cases hr : argminSent r with
    | none => simp [argminSent, hr]
    | some m2 => by_cases hlt : m2.sent < m.sent <;> simp [argminSent, hr, hlt]

lemma argminSent_mem {l : List Msg} {m : Msg} (h : argminSent l = some m) : m ∈ l := by
  induction l generalizing m with
  | nil => simp [argminSent] at h
  | cons a r ih =>
    cases hr : argminSent r with
    | none =>
      simp [argminSent, hr] at h
      simp [h]
    | some m2 =>
      by_cases hlt : m2.sent < a.sent
      · simp [argminSent, hr, hlt] at h
        exact h ▸ List.mem_cons_of_mem _ (ih hr)
      · simp [argminSent, hr, hlt] at h
        simp [h]

lemma argminSent_le {l : List Msg} {m : Msg} (h : argminSent l = some m) :
    ∀ x ∈ l, m.sent ≤ x.sent := by
  induction l generalizing m with
  | nil => simp [argminSent] at h
  | cons a r ih =>
    intro x hx
    rcases List.mem_cons.mp hx with rfl | hxr
    · cases hr : argminSent r with
      | none =>
        simp [argminSent, hr] at h
        subst h
        exact Nat.le_refl _
      | some m2 =>
        by_cases hlt : m2.sent < x.sent
        · simp [argminSent, hr, hlt] at h
          subst h
          exact Nat.le_of_lt hlt
        · simp [argminSent, hr, hlt] at h
          subst h
          exact Nat.le_refl _
    · cases hr : argminSent r with
      | none =>
        rw [argminSent_eq_none.mp hr] at hxr
        simp at hxr
      | some m2 =>
        have h2 := ih hr x hxr
        by_cases hlt : m2.sent < a.sent
        · simp [argminSent, hr, hlt] at h
          subst h
          exact h2
        · simp [argminSent, hr, hlt] at h
          subst h
          omega

lemma argminSent_filter {l : List Msg} {p : Msg → Bool} {m : Msg}
    (h : argminSent l = some m) (hp : p m = true) :
    argminSent (l.filter p) = some m := by
  induction l generalizing m with
  | nil => simp [argminSent] at h
  | cons a r ih =>
    cases hr : argminSent r with
    | none =>
      simp [argminSent, hr] at h
      subst h
      rw [argminSent_eq_none.mp hr]
      simp [List.filter_cons_of_pos hp, argminSent]
    | some m2 =>
      by_cases hlt : m2.sent < a.sent
      · simp [argminSent, hr, hlt] at h
        subst h
        have hfr := ih hr hp
        by_cases hpa : p a = true
        · rw [List.filter_cons_of_pos hpa]
          simp only [argminSent, hfr, if_pos hlt]
        · rw [List.filter_cons_of_neg (by simpa using hpa)]
          exact hfr
      · simp [argminSent, hr, hlt] at h
        subst h
        rw [List.filter_cons_of_pos hp]
        simp only [argminSent]
        cases hfr : argminSent (r.filter p) with
        | none => rfl
        | some m3 =>
          have h3r : m3 ∈ r := List.mem_of_mem_filter (argminSent_mem hfr)
          have hle : m2.sent ≤ m3.sent := argminSent_le hr m3 h3r
          have hnl : ¬ m3.sent < a.sent := by omega
          simp [hnl]

lemma selectOldest_mem {s : Store} {m : Msg} (h : selectOldest s = some m) :
    m ∈ s ∧ eligible m = true :=
  ⟨List.mem_of_mem_filter (argminSent_mem h), List.of_mem_filter (argminSent_mem h)⟩

lemma filterNS_eq (s : Store) :
    (s.filter eligible).filter (fun m => !isSystemMessage m) = s.filter eligibleNS := by
  induction s with
  | nil => rfl
  | cons a r ih =>
    by_cases he : eligible a = true
    · by_cases hs : isSystemMessage a = true
      · rw [List.filter_cons_of_pos he, List.filter_cons_of_neg (by simp [hs]),
          List.filter_cons_of_neg (by simp [eligibleNS, hs]), ih]
      · simp only [Bool.not_eq_true] at hs
        rw [List.filter_cons_of_pos he, List.filter_cons_of_pos (by simp [hs]),
          List.filter_cons_of_pos (by simp [eligibleNS, he, hs]), ih]
    · rw [List.filter_cons_of_neg (by simpa using he),
        List.filter_cons_of_neg
          (by simp only [eligibleNS, Bool.and_eq_true, not_and]
              exact fun hea => absurd hea he), ih]

/-! ## Effects of `markProcessed` on the store -/

lemma markProcessed_map_ts (s : Store) (t : Nat) :
    (markProcessed s t).map Msg.ts = s.map Msg.ts := by
  induction s with
  | nil => rfl
  | cons a r ih =>
    by_cases h : a.ts = t <;> simp [markProcessed, h] <;>
      simpa [markProcessed] using ih

lemma markProcessed_not_mem {s : Store} {t : Nat} (h : t ∉ s.map Msg.ts) :
    markProcessed s t = s := by
  induction s with
  | nil => rfl
  | cons a r ih =>
    simp only [List.map_cons, List.mem_cons, not_or] at h
    simp only [markProcessed, List.map_cons, if_neg (by omega : ¬ a.ts = t)]
    have := ih (by simpa [markProcessed] using h.2)
    simpa [markProcessed] using this

lemma mem_of_mem_markProcessed {s : Store} {t : Nat} {x : Msg}
    (hx : x ∈ markProcessed s t) (hp : x.processed = false) : x ∈ s := by
  induction s with
  | nil => simp [markProcessed] at hx
  | cons a r ih =>
    simp only [markProcessed, List.map_cons, List.mem_cons] at hx
    rcases hx with hx | hx
    · by_cases h : a.ts = t
      · rw [if_pos h] at hx; rw [hx] at hp; simp at hp
      · rw [if_neg h] at hx; simp [hx]
    · exact List.mem_cons_of_mem _ (ih (by simpa [markProcessed] using hx))

lemma markProcessed_filter_eligible {s : Store} {m0 : Msg}
    (hnd : (s.map Msg.ts).Nodup) (hm : m0 ∈ s) (he : eligible m0 = true) :
    (markProcessed s m0.ts).filter eligible = (s.filter eligible).erase m0 := by
  induction s with
  | nil => simp at hm
  | cons a r ih =>
    simp only [List.map_cons, List.nodup_cons] at hnd
    obtain ⟨hats, hndr⟩ := hnd
    rcases List.mem_cons.mp hm with rfl | hmr
    · have hr : markProcessed r m0.ts = r :=
        markProcessed_not_mem hats
      simp only [markProcessed, List.map_cons, if_pos rfl]
      rw [List.filter_cons_of_neg (by simp [eligible])]
      rw [List.filter_cons_of_pos he, List.erase_cons_head]
      simpa [markProcessed] using congrArg (List.filter eligible) hr
    · have hne : a.ts ≠ m0.ts := by
        intro hEq
        exact hats (hEq ▸ List.mem_map_of_mem Msg.ts hmr)
      have hanem : ¬ (a == m0) = true := by
        simp only [beq_iff_eq]
        intro hEq
        exact hne (by rw [hEq])
      simp only [markProcessed, List.map_cons, if_neg hne]
      by_cases hea : eligible a = true
      · rw [List.filter_cons_of_pos hea, List.filter_cons_of_pos hea,
          List.erase_cons_tail hanem]
        have := ih hndr hmr
        simpa [markProcessed] using congrArg (List.cons a) this
      · rw [List.filter_cons_of_neg (by simpa using hea),
          List.filter_cons_of_neg (by simpa using hea)]
        simpa [markProcessed] using ih hndr hmr

lemma markProcessed_filter_NS {s : Store} {m0 : Msg}
    (hnd : (s.map Msg.ts).Nodup) (hm : m0 ∈ s) (hsys : isSystemMessage m0 = true) :
    (markProcessed s m0.ts).filter eligibleNS = s.filter eligibleNS := by
  induction s with
  | nil => simp at hm
  | cons a r ih =>
    simp only [List.map_cons, List.nodup_cons] at hnd
    obtain ⟨hats, hndr⟩ := hnd
    rcases List.mem_cons.mp hm with rfl | hmr
    · have hr : markProcessed r m0.ts = r := markProcessed_not_mem hats
      simp only [markProcessed, List.map_cons, if_pos rfl]
      rw [List.filter_cons_of_neg (by simp [eligibleNS, eligible])]
      rw [List.filter_cons_of_neg
        (by simp [eligibleNS, hsys])]
      simpa [markProcessed] using congrArg (List.filter eligibleNS) hr
    · have hne : a.ts ≠ m0.ts := by
        intro hEq
        exact hats (hEq ▸ List.mem_map_of_mem Msg.ts hmr)
      simp only [markProcessed, List.map_cons, if_neg hne]
      by_cases hea : eligibleNS a = true
      · rw [List.filter_cons_of_pos hea, List.filter_cons_of_pos hea]
        have := ih hndr hmr
        simpa [markProcessed] using congrArg (List.cons a) this
      · rw [List.filter_cons_of_neg (by simpa using hea),
          List.filter_cons_of_neg (by simpa using hea)]
        simpa [markProcessed] using ih hndr hmr

/-! ## Item flags under the claim operations -/

lemma itemProcessed_not_mem {s : Store} {t : Nat} (h : t ∉ s.map Msg.ts) :
    itemProcessed s t = false := by
  induction s with
  | nil => rfl
  | cons a r ih =>
    simp only [List.map_cons, List.mem_cons, not_or] at h
    have h1 : (a.ts == t) = false := by
      simp only [beq_eq_false_iff_ne, ne_eq]
      exact fun hEq => h.1 hEq.symm
    simp only [itemProcessed, List.any_cons, h1, Bool.false_and, Bool.false_or]
    exact ih h.2

lemma itemProcessed_mark_mono {s : Store} {t u : Nat}
    (h : itemProcessed s t = true) : itemProcessed (markProcessed s u) t = true := by
  induction s with
  | nil => simp [itemProcessed] at h
  | cons a r ih =>
    simp only [itemProcessed, List.any_cons, Bool.or_eq_true] at h
    simp only [markProcessed, List.map_cons, itemProcessed, List.any_cons, Bool.or_eq_true]
    rcases h with h | h
    · left
      by_cases hu : a.ts = u
      · rw [if_pos hu]
        simp only [Bool.and_eq_true] at h ⊢
        exact ⟨h.1, trivial⟩
      · rw [if_neg hu]
        exact h
    · right
      exact ih h

lemma itemProcessed_mark_self {s : Store} {m0 : Msg} (hm : m0 ∈ s) :
    itemProcessed (markProcessed s m0.ts) m0.ts = true := by
  induction s with
  | nil => simp at hm
  | cons a r ih =>
    simp only [markProcessed, List.map_cons, itemProcessed, List.any_cons, Bool.or_eq_true]
    rcases List.mem_cons.mp hm with rfl | hmr
    · left
      rw [if_pos rfl]
      simp
    · right
      exact ih hmr

lemma itemDelivered_mark (s : Store) (t u : Nat) :
    itemDelivered (markProcessed s u) t = itemDelivered s t := by
  induction s with
  | nil => rfl
  | cons a r ih =>
    simp only [markProcessed, List.map_cons, itemDelivered, List.any_cons]
    have htail : (List.map (fun m => if m.ts = u then { m with processed := true } else m) r).any
        (fun m => m.ts == t && m.report_sent) =
        r.any (fun m => m.ts == t && m.report_sent) := by
      simpa [markProcessed, itemDelivered] using ih
    rw [htail]
    by_cases hu : a.ts = u
    · rw [if_pos hu]
    · rw [if_neg hu]

lemma allMarked_mark_self (s : Store) (t : Nat) :
    allMarked (markProcessed s t) t = true := by
  induction s with
  | nil => rfl
  | cons a r ih =>
    simp only [markProcessed, List.map_cons, allMarked, List.all_cons, Bool.and_eq_true]
    refine ⟨?_, by simpa [allMarked, markProcessed] using ih⟩
    by_cases hu : a.ts = t
    · rw [if_pos hu]
      simp
    · rw [if_neg hu]
      have h1 : (a.ts == t) = false := by
        simp only [beq_eq_false_iff_ne, ne_eq]
        exact hu
      simp [h1]

lemma allMarked_mark_mono {s : Store} {t u : Nat}
    (h : allMarked s t = true) : allMarked (markProcessed s u) t = true := by
  induction s with
  | nil => rfl
  | cons a r ih =>
    simp only [allMarked, List.all_cons, Bool.and_eq_true] at h
    simp only [markProcessed, List.map_cons, allMarked, List.all_cons, Bool.and_eq_true]
    refine ⟨?_, by simpa [allMarked, markProcessed] using ih h.2⟩
    by_cases hu : a.ts = u
    · rw [if_pos hu]
      rcases Bool.or_eq_true _ _ |>.mp h.1 with h1 | _
      · simp [Bool.or_eq_true, h1]
      · simp
    · rw [if_neg hu]
      exact h.1

lemma allMarked_not_claimed {s : Store} {t : Nat} {m : Msg}
    (ha : allMarked s t = true) (hm : m ∈ s) (he : eligible m = true) :
    (m.ts == t) = false := by
  have hall := List.all_eq_true.mp ha m hm
  have hp : m.processed = false := by
    simp only [eligible, Bool.and_eq_true, Bool.not_eq_true'] at he
    exact he.1
  rcases Bool.or_eq_true _ _ |>.mp hall with h1 | h1
  · simpa using h1
  · rw [hp] at h1
    exact absurd h1 (by simp)

/-! ## The locked claim attempt -/

lemma lock_some {s : Store} {m : Msg}
    (h : (step2_get_and_lock_unprocessed_message s).1 = some m) :
    selectOldest s = some m ∧ isSystemMessage m = false ∧
    (step2_get_and_lock_unprocessed_message s).2 = markProcessed s m.ts := by
  unfold step2_get_and_lock_unprocessed_message at h ⊢
  cases hsel : selectOldest s with
  | none => rw [hsel] at h; simp at h
  | some m0 =>
    rw [hsel] at h
    by_cases hsys : isSystemMessage m0 = true
    · simp [hsys] at h
    · simp only [Bool.not_eq_true] at hsys
      simp only [hsys, Bool.false_eq_true, if_false, Option.some.injEq] at h
      subst h
      simp [hsys]

lemma step2B_no_system {s : Store} {m : Msg}
    (h : (step2_get_and_lock_unprocessed_message s).1 = some m) :
    isSystemMessage m = false :=
  (lock_some h).2.1

lemma step2B_retires {s : Store} {m0 : Msg}
    (hsel : selectOldest s = some m0) (hsys : isSystemMessage m0 = true) :
    (step2_get_and_lock_unprocessed_message s).1 = none ∧
    itemProcessed (step2_get_and_lock_unprocessed_message s).2 m0.ts = true := by
  have h2 : step2_get_and_lock_unprocessed_message s = (none, markProcessed s m0.ts) := by
    unfold step2_get_and_lock_unprocessed_message
    rw [hsel]
    simp [hsys]
  rw [h2]
  exact ⟨rfl, itemProcessed_mark_self (selectOldest_mem hsel).1⟩

lemma applyOutcome_shape (o : Outcome) (s : Store) :
    applyOutcome o s = s ∨ ∃ u, applyOutcome o s = markProcessed s u := by
  cases o with
  | timeout => exact Or.inl rfl
  | run =>
    simp only [applyOutcome]
    unfold step2_get_and_lock_unprocessed_message
    cases hsel : selectOldest s with
    | none => exact Or.inl rfl
    | some m0 =>
      by_cases hsys : isSystemMessage m0 = true
      · simp only [hsys, if_true]
        exact Or.inr ⟨m0.ts, rfl⟩
      · simp only [Bool.not_eq_true] at hsys
        simp only [hsys, Bool.false_eq_true, if_false]
        exact Or.inr ⟨m0.ts, rfl⟩

lemma itemProcessed_applyOutcome_mono {o : Outcome} {s : Store} {t : Nat}
    (h : itemProcessed s t = true) : itemProcessed (applyOutcome o s) t = true := by
  rcases applyOutcome_shape o s with hs | ⟨u, hs⟩ <;> rw [hs]
  · exact h
  · exact itemProcessed_mark_mono h

lemma allMarked_applyOutcome {o : Outcome} {s : Store} {t : Nat}
    (h : allMarked s t = true) : allMarked (applyOutcome o s) t = true := by
  rcases applyOutcome_shape o s with hs | ⟨u, hs⟩ <;> rw [hs]
  · exact h
  · exact allMarked_mark_mono h

lemma itemProcessed_final_mono : ∀ (os : List Outcome) {s : Store} {t : Nat},
    itemProcessed s t = true → itemProcessed (finalStore os s) t = true := by
  intro os
  induction os with
  | nil => intro s t h; exact h
  | cons o os ih =>
    intro s t h
    exact ih (itemProcessed_applyOutcome_mono h)

lemma claimsCount_zero_of_allMarked : ∀ (os : List Outcome) (s : Store) (t : Nat),
    allMarked s t = true → claimsCount (resultsOf os s) t = 0 := by
  intro os
  induction os with
  | nil => intro s t _; rfl
  | cons o os ih =>
    intro s t ha
    have tail := ih (applyOutcome o s) t (allMarked_applyOutcome ha)
    simp only [resultsOf, claimsCount, List.countP_cons] at tail ⊢
    cases o with
    | timeout => simpa using tail
    | run =>
      cases hr : (step2_get_and_lock_unprocessed_message s).1 with
      | none => simpa [hr] using tail
      | some m =>
        have hts : (m.ts == t) = false :=
          allMarked_not_claimed ha (selectOldest_mem (lock_some hr).1).1
            (selectOldest_mem (lock_some hr).1).2
        simp only [hr, hts, if_false]
        simpa using tail

/-- C1: claim exclusivity under the lock.  The file lock serializes the whole
critical section of `step2_get_and_lock_unprocessed_message`, so any `N`
concurrent attempts against one store execute as a sequence of atomic
attempts, each either timing out (returning no item, store untouched) or
running the claim body.  For every item key `t`: the number of attempts that
transition its processed flag false→true is exactly one when the flag starts
false and ends true, and zero otherwise (so never more than one); and at most
one attempt returns an item with key `t` — every other attempt returns a
different item or no item. -/
theorem claim_exclusivity :
    (∀ (os : List Outcome) (s0 : Store) (t : Nat),
        flips os s0 t =
          if itemProcessed s0 t = true then 0
          else if itemProcessed (finalStore os s0) t = true then 1 else 0) ∧
    (∀ (os : List Outcome) (s0 : Store) (t : Nat),
        claimsCount (resultsOf os s0) t ≤ 1) := by
  constructor
  · intro os
    induction os with
    | nil =>
      intro s0 t
      simp only [flips, finalStore]
      by_cases h : itemProcessed s0 t = true <;> simp [h]
    | cons o os ih =>
      intro s0 t
      simp only [flips, finalStore]
      by_cases h0 : itemProcessed s0 t = true
      · have h1 : itemProcessed (applyOutcome o s0) t = true :=
          itemProcessed_applyOutcome_mono h0
        rw [ih (applyOutcome o s0) t]
        simp [h0, h1]
      · have h0' : itemProcessed s0 t = false := by
          cases hb : itemProcessed s0 t with
          | true => exact absurd hb h0
          | false => rfl
        by_cases h1 : itemProcessed (applyOutcome o s0) t = true
        · have hfin : itemProcessed (finalStore os (applyOutcome o s0)) t = true :=
            itemProcessed_final_mono os h1
          rw [ih (applyOutcome o s0) t]
          simp [h0', h1, hfin]
        · have h1' : itemProcessed (applyOutcome o s0) t = false := by
            cases hb : itemProcessed (applyOutcome o s0) t with
            | true => exact absurd hb h1
            | false => rfl
          rw [ih (applyOutcome o s0) t]
          simp [h0', h1']
  · intro os
    induction os with
    | nil => intro s0 t; simp [resultsOf, claimsCount]
    | cons o os ih =>
      intro s0 t
      simp only [resultsOf, claimsCount, List.countP_cons]
      cases o with
      | timeout =>
        simpa [claimsCount] using ih s0 t
      | run =>
        cases hr : (step2_get_and_lock_unprocessed_message s0).1 with
        | none => simpa [claimsCount, hr] using ih (applyOutcome Outcome.run s0) t
        | some m =>
          by_cases hts : (m.ts == t) = true
          · have hbeq : m.ts = t := by simpa using hts
            have hmark : allMarked (applyOutcome Outcome.run s0) t = true := by
              simp only [applyOutcome]
              rw [(lock_some hr).2.2, ← hbeq]
              exact allMarked_mark_self s0 m.ts
            have := claimsCount_zero_of_allMarked os (applyOutcome Outcome.run s0) t hmark
            simp only [claimsCount] at this
            simp [hr, hts, this]
          · have hts' : (m.ts == t) = false := by
              cases hb : (m.ts == t) with
              | true => exact absurd hb hts
              | false => rfl
            simpa [claimsCount, hr, hts'] using ih (applyOutcome Outcome.run s0) t

/-! ## The recursive claim of orchestrator.py -/

lemma bool_false_of_not {b : Bool} (h : ¬ b = true) : b = false := by
  cases b with
  | true => exact absurd rfl h
  | false => rfl

lemma step2A_no_system : ∀ (fuel : Nat) (s : Store) (m : Msg),
    (step2_get_oldest_unprocessed_message fuel s).1 = some m →
    isSystemMessage m = false := by
  intro fuel
  induction fuel with
  | zero =>
    intro s m h
    simp [step2_get_oldest_unprocessed_message] at h
  | succ f ih =>
    intro s m h
    cases hsel : selectOldest s with
    | none => simp [step2_get_oldest_unprocessed_message, hsel] at h
    | some m0 =>
      by_cases hsys : isSystemMessage m0 = true
      · simp only [step2_get_oldest_unprocessed_message, hsel, hsys, if_true] at h
        exact ih _ _ h
      · have hsys' : isSystemMessage m0 = false := bool_false_of_not hsys
        simp only [step2_get_oldest_unprocessed_message, hsel, hsys',
          Bool.false_eq_true, if_false, Option.some.injEq] at h
        exact h ▸ hsys'

lemma step2A_eq_selectNS : ∀ (fuel : Nat) (s : Store),
    (s.map Msg.ts).Nodup → (s.filter eligible).length ≤ fuel →
    (step2_get_oldest_unprocessed_message fuel s).1 = selectOldestNS s := by
  intro fuel
  induction fuel with
  | zero =>
    intro s _ hlen
    have h0 : s.filter eligible = [] := List.length_eq_zero.mp (Nat.le_zero.mp hlen)
    have h1 : s.filter eligibleNS = [] := by
      rw [← filterNS_eq, h0]
      rfl
    simp [step2_get_oldest_unprocessed_message, selectOldestNS, h1, argminSent]
  | succ f ih =>
    intro s hnd hlen
    cases hsel : selectOldest s with
    | none =>
      have h0 : s.filter eligible = [] := by
        unfold selectOldest at hsel
        exact argminSent_eq_none.mp hsel
      have h1 : s.filter eligibleNS = [] := by
        rw [← filterNS_eq, h0]
        rfl
      simp [step2_get_oldest_unprocessed_message, hsel, selectOldestNS, h1, argminSent]
    | some m0 =>
      have hm0 := selectOldest_mem hsel
      have hmemf : m0 ∈ s.filter eligible := by
        unfold selectOldest at hsel
        exact argminSent_mem hsel
      by_cases hsys : isSystemMessage m0 = true
      · simp only [step2_get_oldest_unprocessed_message, hsel, hsys, if_true]
        have hnd' : ((markProcessed s m0.ts).map Msg.ts).Nodup := by
          rw [markProcessed_map_ts]
          exact hnd
        have hfe : (markProcessed s m0.ts).filter eligible = (s.filter eligible).erase m0 :=
          markProcessed_filter_eligible hnd hm0.1 hm0.2
        have hpos : 0 < (s.filter eligible).length :=
          List.length_pos.mpr (List.ne_nil_of_mem hmemf)
        have hlen' : ((markProcessed s m0.ts).filter eligible).length ≤ f := by
          rw [hfe, List.length_erase_of_mem hmemf]
          omega
        rw [ih (markProcessed s m0.ts) hnd' hlen']
        unfold selectOldestNS
        rw [markProcessed_filter_NS hnd hm0.1 hsys]
      · have hsys' : isSystemMessage m0 = false := bool_false_of_not hsys
        simp only [step2_get_oldest_unprocessed_message, hsel, hsys',
          Bool.false_eq_true, if_false]
        have hsel' : argminSent (s.filter eligible) = some m0 := by
          unfold selectOldest at hsel
          exact hsel
        have hmin := argminSent_filter (p := fun m => !isSystemMessage m) hsel'
          (by simp [hsys'])
        unfold selectOldestNS
        rw [← filterNS_eq, hmin]

lemma step2A_store_map_ts : ∀ (fuel : Nat) (s : Store),
    ((step2_get_oldest_unprocessed_message fuel s).2).map Msg.ts = s.map Msg.ts := by
  intro fuel
  induction fuel with
  | zero => intro s; rfl
  | succ f ih =>
    intro s
    cases hsel : selectOldest s with
    | none => simp [step2_get_oldest_unprocessed_message, hsel]
    | some m0 =>
      by_cases hsys : isSystemMessage m0 = true
      · simp only [step2_get_oldest_unprocessed_message, hsel, hsys, if_true]
        rw [ih, markProcessed_map_ts]
      · have hsys' : isSystemMessage m0 = false := bool_false_of_not hsys
        simp [step2_get_oldest_unprocessed_message, hsel, hsys']

lemma step2A_store_filterNS : ∀ (fuel : Nat) (s : Store), (s.map Msg.ts).Nodup →
    ((step2_get_oldest_unprocessed_message fuel s).2).filter eligibleNS =
      s.filter eligibleNS := by
  intro fuel
  induction fuel with
  | zero => intro s _; rfl
  | succ f ih =>
    intro s hnd
    cases hsel : selectOldest s with
    | none => simp [step2_get_oldest_unprocessed_message, hsel]
    | some m0 =>
      have hm0 := selectOldest_mem hsel
      by_cases hsys : isSystemMessage m0 = true
      · simp only [step2_get_oldest_unprocessed_message, hsel, hsys, if_true]
        have hnd' : ((markProcessed s m0.ts).map Msg.ts).Nodup := by
          rw [markProcessed_map_ts]
          exact hnd
        rw [ih (markProcessed s m0.ts) hnd', markProcessed_filter_NS hnd hm0.1 hsys]
      · have hsys' : isSystemMessage m0 = false := bool_false_of_not hsys
        simp [step2_get_oldest_unprocessed_message, hsel, hsys']

lemma step2A_itemDelivered : ∀ (fuel : Nat) (s : Store) (t : Nat),
    itemDelivered ((step2_get_oldest_unprocessed_message fuel s).2) t =
      itemDelivered s t := by
  intro fuel
  induction fuel with
  | zero => intro s t; rfl
  | succ f ih =>
    intro s t
    cases hsel : selectOldest s with
    | none => simp [step2_get_oldest_unprocessed_message, hsel]
    | some m0 =>
      by_cases hsys : isSystemMessage m0 = true
      · simp only [step2_get_oldest_unprocessed_message, hsel, hsys, if_true]
        rw [ih, itemDelivered_mark]
      · have hsys' : isSystemMessage m0 = false := bool_false_of_not hsys
        simp [step2_get_oldest_unprocessed_message, hsel, hsys']

lemma selectOldestNS_spec {s : Store} {m : Msg} (h : selectOldestNS s = some m) :
    m ∈ s ∧ eligible m = true ∧ isSystemMessage m = false ∧
    ∀ x ∈ s, eligible x = true → isSystemMessage x = false → m.sent ≤ x.sent := by
  have hmem := argminSent_mem h
  have h1 : m ∈ s := List.mem_of_mem_filter hmem
  have h2 : eligibleNS m = true := List.of_mem_filter hmem
  simp only [eligibleNS, Bool.and_eq_true, Bool.not_eq_true'] at h2
  refine ⟨h1, h2.1, h2.2, ?_⟩
  intro x hx hex hsx
  exact argminSent_le h x (List.mem_filter.mpr ⟨hx, by simp [eligibleNS, hex, hsx]⟩)

lemma itemProcessed_false_of_mem {s : Store} {m : Msg}
    (hnd : (s.map Msg.ts).Nodup) (hm : m ∈ s) (hp : m.processed = false) :
    itemProcessed s m.ts = false := by
  induction s with
  | nil => simp at hm
  | cons a r ih =>
    simp only [List.map_cons, List.nodup_cons] at hnd
    obtain ⟨hats, hndr⟩ := hnd
    rcases List.mem_cons.mp hm with rfl | hmr
    · simp only [itemProcessed, List.any_cons, beq_self_eq_true, Bool.true_and, hp,
        Bool.false_or]
      exact itemProcessed_not_mem hats
    · have hne : a.ts ≠ m.ts := fun hEq => hats (hEq ▸ List.mem_map_of_mem Msg.ts hmr)
      have h1 : (a.ts == m.ts) = false := by
        simp only [beq_eq_false_iff_ne, ne_eq]
        exact hne
      simp only [itemProcessed, List.any_cons, h1, Bool.false_and, Bool.false_or]
      exact ih hndr hmr

/-! ## System-message retirement -/

/-- C6: an item whose text matches a system-notification pattern is never
returned by either claim variant; when it is the selected oldest candidate it
is marked processed with no further processing — the recursive variant then
moves straight on to the next candidate, the locked variant returns no item —
and the Job Launcher is never invoked on it in either workflow. -/
theorem system_message_retirement :
    (∀ (fuel : Nat) (s : Store) (m : Msg),
        (step2_get_oldest_unprocessed_message fuel s).1 = some m →
        isSystemMessage m = false) ∧
    (∀ (s : Store) (m : Msg),
        (step2_get_and_lock_unprocessed_message s).1 = some m →
        isSystemMessage m = false) ∧
    (∀ (s : Store) (m0 : Msg), selectOldest s = some m0 → isSystemMessage m0 = true →
        (∀ fuel, step2_get_oldest_unprocessed_message (fuel + 1) s =
            step2_get_oldest_unprocessed_message fuel (markProcessed s m0.ts)) ∧
        itemProcessed (markProcessed s m0.ts) m0.ts = true ∧
        (step2_get_and_lock_unprocessed_message s).1 = none ∧
        itemProcessed (step2_get_and_lock_unprocessed_message s).2 m0.ts = true) ∧
    (∀ (s : Store) (launch : Msg → Option Nat) (fuel : Nat) (m : Msg),
        (run_workflow s launch fuel).launched = some m → isSystemMessage m = false) ∧
    (∀ (s : Store) (launch : Msg → Option Nat) (m : Msg),
        (run_workflow_concurrent s launch).launched = some m →
        isSystemMessage m = false) := by
  have hwfA : ∀ (s : Store) (launch : Msg → Option Nat) (fuel : Nat) (m : Msg),
      (run_workflow s launch fuel).launched = some m →
      (step2_get_oldest_unprocessed_message fuel s).1 = some m := by
    intro s launch fuel m h
    unfold run_workflow at h
    rcases hp : step2_get_oldest_unprocessed_message fuel s with ⟨r, s1⟩
    rw [hp] at h
    cases r with
    | none => simp at h
    | some m1 =>
      cases hl : launch m1 with
      | none =>
        simp [hl] at h
        subst h
        rfl
      | some u =>
        simp [hl] at h
        subst h
        rfl
  have hwfB : ∀ (s : Store) (launch : Msg → Option Nat) (m : Msg),
      (run_workflow_concurrent s launch).launched = some m →
      (step2_get_and_lock_unprocessed_message s).1 = some m := by
    intro s launch m h
    unfold run_workflow_concurrent at h
    rcases hp : step2_get_and_lock_unprocessed_message s with ⟨r, s1⟩
    rw [hp] at h
    cases r with
    | none => simp at h
    | some m1 =>
      cases hl : launch m1 with
      | none =>
        simp [hl] at h
        subst h
        rfl
      | some u =>
        simp [hl] at h
        subst h
        rfl
  refine ⟨step2A_no_system, fun s m h => step2B_no_system h, ?_, ?_, ?_⟩
  · intro s m0 hsel hsys
    refine ⟨?_, itemProcessed_mark_self (selectOldest_mem hsel).1,
      (step2B_retires hsel hsys).1, (step2B_retires hsel hsys).2⟩
    intro fuel
    simp [step2_get_oldest_unprocessed_message, hsel, hsys]
  · intro s launch fuel m h
    exact step2A_no_system fuel s m (hwfA s launch fuel m h)
  · intro s launch m h
    exact step2B_no_system (hwfB s launch m h)

/-- Witness for C6 at the claim's example: a store whose only item has text
exactly "X has joined the channel" — the locked claim returns no item and
leaves it marked processed. -/
theorem system_message_retirement_witness :
    (step2_get_and_lock_unprocessed_message exSysStore).1 = none ∧
    itemProcessed (step2_get_and_lock_unprocessed_message exSysStore).2 exSysMsg.ts
      = true := by
  have h := system_message_retirement.2.2.1 exSysStore exSysMsg (by decide) (by decide)
  exact ⟨h.2.2.1, h.2.2.2⟩

/-! ## The system-message test is substring containment -/

/-- C10: the system-message test is substring containment on the lowercased
text, not an exact-text match: any selected item whose text merely contains a
notification phrase is retired — marked processed, returned to no caller,
never launched.  `exMentionMsg` is a genuine user request that contains
"has joined the channel" without being that notification. -/
theorem system_test_is_substring :
    (∀ m : Msg, (∃ p ∈ system_message_patterns, containsSub p (lowerL m.text) = true) →
        isSystemMessage m = true) ∧
    (∀ (fuel : Nat) (s : Store) (m : Msg),
        (step2_get_oldest_unprocessed_message fuel s).1 = some m →
        ∀ p ∈ system_message_patterns, containsSub p (lowerL m.text) = false) ∧
    (∀ (s : Store) (m0 : Msg), selectOldest s = some m0 →
        containsSub (("has joined the channel").toList) (lowerL m0.text) = true →
        (step2_get_and_lock_unprocessed_message s).1 = none ∧
        itemProcessed (step2_get_and_lock_unprocessed_message s).2 m0.ts = true) ∧
    isSystemMessage exMentionMsg = true ∧
    exMentionMsg.text ≠ ("X has joined the channel").toList := by
  have hany : ∀ m : Msg,
      (∃ p ∈ system_message_patterns, containsSub p (lowerL m.text) = true) →
      isSystemMessage m = true := by
    intro m ⟨p, hp, hc⟩
    unfold isSystemMessage
    exact List.any_eq_true.mpr ⟨p, hp, hc⟩
  refine ⟨hany, ?_, ?_, by decide, by decide⟩
  · intro fuel s m h p hp
    have hs := step2A_no_system fuel s m h
    by_cases hc : containsSub p (lowerL m.text) = true
    · rw [hany m ⟨p, hp, hc⟩] at hs
      exact absurd hs (by simp)
    · exact bool_false_of_not hc
  · intro s m0 hsel hc
    have hsys : isSystemMessage m0 = true :=
      hany m0 ⟨("has joined the channel").toList, by decide, hc⟩
    exact step2B_retires hsel hsys

/-- Witness for C10: the user request mentioning the phrase is retired by the
locked claim without being handed to the caller. -/
theorem system_test_is_substring_witness :
    (step2_get_and_lock_unprocessed_message exMentionStore).1 = none ∧
    itemProcessed (step2_get_and_lock_unprocessed_message exMentionStore).2
      exMentionMsg.ts = true :=
  system_test_is_substring.2.2.1 exMentionStore exMentionMsg (by decide) (by decide)

/-! ## Claim order -/

/-- C7: counterexample.  In `exTieStore` the two eligible non-system items
share `sentAt = 5` and the item with the larger identity (`ts = 2`) sits
first in table order: the claim returns it, so ties are not broken by item
identity.  In `exSysFirstStore` the oldest eligible item is a system message:
the locked claim returns no item at all rather than the eligible non-system
item that is present. -/
theorem claim_order_tiebreak_cex :
    (step2_get_oldest_unprocessed_message 2 exTieStore).1 = some exMsgTie2 ∧
    exMsgTie2.ts = 2 ∧ exMsgTie1.ts = 1 ∧ exMsgTie1 ∈ exTieStore ∧
    exMsgTie1.sent = exMsgTie2.sent ∧ eligible exMsgTie1 = true ∧
    isSystemMessage exMsgTie1 = false ∧
    (step2_get_and_lock_unprocessed_message exSysFirstStore).1 = none ∧
    exUserMsg ∈ exSysFirstStore ∧ eligible exUserMsg = true ∧
    isSystemMessage exUserMsg = false := by
  refine ⟨?_, ?_, ?_, ?_, ?_, ?_, ?_, ?_, ?_, ?_, ?_⟩ <;> decide

/-- C7 (amended): the recursive claim returns exactly the first-in-table-order
eligible non-system item of minimal `sentAt` (ties broken by table position,
not by `ts`), and marks skipped system messages processed along the way; the
locked claim, when it returns an item, returns that same item (it returns
none when the overall-oldest eligible item is a system message).  The third
part interprets `selectOldestNS`: the returned item is an eligible non-system
member of the store whose `sentAt` is minimal among eligible non-system
items. -/
theorem claim_order_amended :
    (∀ (fuel : Nat) (s : Store), (s.map Msg.ts).Nodup →
        (s.filter eligible).length ≤ fuel →
        (step2_get_oldest_unprocessed_message fuel s).1 = selectOldestNS s) ∧
    (∀ (s : Store) (m : Msg),
        (step2_get_and_lock_unprocessed_message s).1 = some m →
        selectOldestNS s = some m) ∧
    (∀ (s : Store) (m : Msg), selectOldestNS s = some m →
        m ∈ s ∧ eligible m = true ∧ isSystemMessage m = false ∧
        ∀ x ∈ s, eligible x = true → isSystemMessage x = false →
          m.sent ≤ x.sent) := by
  refine ⟨step2A_eq_selectNS, ?_, fun s m h => selectOldestNS_spec h⟩
  intro s m h
  obtain ⟨hsel, hsys, _⟩ := lock_some h
  have hsel' : argminSent (s.filter eligible) = some m := by
    unfold selectOldest at hsel
    exact hsel
  have hmin := argminSent_filter (p := fun m => !isSystemMessage m) hsel'
    (by simp [hsys])
  unfold selectOldestNS
  rw [← filterNS_eq, hmin]

/-- Witness for C7 (amended) at a concrete two-item store with a `sentAt`
tie. -/
theorem claim_order_amended_witness :
    (step2_get_oldest_unprocessed_message 2 exTieStore).1 = selectOldestNS exTieStore :=
  claim_order_amended.1 2 exTieStore (by decide) (by decide)

/-! ## Launch failure and retryability -/

lemma run_workflow_fail {s : Store} {fuel : Nat} {m : Msg}
    (h : (step2_get_oldest_unprocessed_message fuel s).1 = some m) :
    run_workflow s (fun _ => none) fuel =
      ⟨some m, (step2_get_oldest_unprocessed_message fuel s).2⟩ := by
  unfold run_workflow
  rcases hp : step2_get_oldest_unprocessed_message fuel s with ⟨r, s1⟩
  rw [hp] at h
  cases r with
  | none => simp at h
  | some m1 =>
    simp only [Option.some.injEq] at h
    subst h
    rfl

lemma run_workflow_concurrent_fail {s : Store} {m : Msg}
    (h : (step2_get_and_lock_unprocessed_message s).1 = some m) :
    run_workflow_concurrent s (fun _ => none) =
      ⟨some m, (step2_get_and_lock_unprocessed_message s).2⟩ := by
  unfold run_workflow_concurrent
  rcases hp : step2_get_and_lock_unprocessed_message s with ⟨r, s1⟩
  rw [hp] at h
  cases r with
  | none => simp at h
  | some m1 =>
    simp only [Option.some.injEq] at h
    subst h
    rfl

/-- C8 (amended): when the job launch fails (the launcher returns no handle,
covering external error, timeout and missing URL artifact), neither variant
ever sets the delivery flag; in `orchestrator.py` the claimed item's
processed flag is still unset, so the very next claim pass returns the same
item (retryable); but in `orchestrator_concurrent.py` the item was already
marked processed at claim time and is not rolled back, so no later locked
claim can return it again. -/
theorem launch_failure_retryability :
    (∀ (s : Store) (fuel : Nat) (m : Msg), (s.map Msg.ts).Nodup →
        (s.filter eligible).length ≤ fuel →
        (step2_get_oldest_unprocessed_message fuel s).1 = some m →
        (run_workflow s (fun _ => none) fuel).launched = some m ∧
        (run_workflow s (fun _ => none) fuel).store =
          (step2_get_oldest_unprocessed_message fuel s).2 ∧
        itemProcessed (run_workflow s (fun _ => none) fuel).store m.ts = false ∧
        itemDelivered (run_workflow s (fun _ => none) fuel).store m.ts =
          itemDelivered s m.ts ∧
        (∀ fuel2 : Nat,
            (((run_workflow s (fun _ => none) fuel).store).filter eligible).length ≤ fuel2 →
            (step2_get_oldest_unprocessed_message fuel2
              (run_workflow s (fun _ => none) fuel).store).1 = some m)) ∧
    (∀ (s : Store) (m : Msg),
        (step2_get_and_lock_unprocessed_message s).1 = some m →
        (run_workflow_concurrent s (fun _ => none)).launched = some m ∧
        (run_workflow_concurrent s (fun _ => none)).store =
          (step2_get_and_lock_unprocessed_message s).2 ∧
        itemProcessed (run_workflow_concurrent s (fun _ => none)).store m.ts = true ∧
        itemDelivered (run_workflow_concurrent s (fun _ => none)).store m.ts =
          itemDelivered s m.ts ∧
        (∀ m2 : Msg, (step2_get_and_lock_unprocessed_message
            (run_workflow_concurrent s (fun _ => none)).store).1 = some m2 →
            m2.ts ≠ m.ts)) := by
  constructor
  · intro s fuel m hnd hlen hsome
    have hw := run_workflow_fail hsome
    rw [hw]
    have hnd1 : (((step2_get_oldest_unprocessed_message fuel s).2).map Msg.ts).Nodup := by
      rw [step2A_store_map_ts]
      exact hnd
    have hsNS : selectOldestNS s = some m := by
      rw [← step2A_eq_selectNS fuel s hnd hlen]
      exact hsome
    have hs1NS : selectOldestNS ((step2_get_oldest_unprocessed_message fuel s).2) = some m := by
      show argminSent _ = some m
      rw [step2A_store_filterNS fuel s hnd]
      exact hsNS
    obtain ⟨hm1, he1, _, _⟩ := selectOldestNS_spec hs1NS
    have hproc : m.processed = false := by
      simp only [eligible, Bool.and_eq_true, Bool.not_eq_true'] at he1
      exact he1.1
    refine ⟨rfl, rfl, ?_, ?_, ?_⟩
    · exact itemProcessed_false_of_mem hnd1 hm1 hproc
    · exact step2A_itemDelivered fuel s m.ts
    · intro fuel2 hlen2
      rw [step2A_eq_selectNS fuel2 _ hnd1 hlen2]
      exact hs1NS
  · intro s m h
    obtain ⟨hsel, _, hstore⟩ := lock_some h
    have hw := run_workflow_concurrent_fail h
    rw [hw]
    refine ⟨rfl, rfl, ?_, ?_, ?_⟩
    · rw [hstore]
      exact itemProcessed_mark_self (selectOldest_mem hsel).1
    · rw [hstore]
      exact itemDelivered_mark s m.ts m.ts
    · intro m2 h2
      have ham : allMarked (step2_get_and_lock_unprocessed_message s).2 m.ts = true := by
        rw [hstore]
        exact allMarked_mark_self s m.ts
      have hm2 := lock_some h2
      have := allMarked_not_claimed ham (selectOldest_mem hm2.1).1 (selectOldest_mem hm2.1).2
      simpa using this

/-- Witness for C8 (amended), `orchestrator.py` side: a one-item store with a
failing launcher leaves the item unprocessed and launched exactly once. -/
theorem launch_failure_retryability_witness :
    itemProcessed (run_workflow exLaunchStore (fun _ => none) 1).store exLaunchMsg.ts
      = false ∧
    (run_workflow exLaunchStore (fun _ => none) 1).launched = some exLaunchMsg := by
  have h := launch_failure_retryability.1 exLaunchStore 1 exLaunchMsg
    (by decide) (by decide) (by decide)
  exact ⟨h.2.2.1, h.1⟩

/-- C8: counterexample on the concurrent variant.  With the same one-item
store and a failing launcher, the pass leaves the item's processed flag set
(never delivered), and the next locked claim finds nothing — the item is not
picked up again, contradicting "its claimed/processed flag is not left set,
so the item is picked up again on the next full pass". -/
theorem launch_failure_concurrent_cex :
    (step2_get_and_lock_unprocessed_message exLaunchStore).1 = some exLaunchMsg ∧
    itemProcessed (run_workflow_concurrent exLaunchStore (fun _ => none)).store 7 = true ∧
    itemDelivered (run_workflow_concurrent exLaunchStore (fun _ => none)).store 7 = false ∧
    (step2_get_and_lock_unprocessed_message
      (run_workflow_concurrent exLaunchStore (fun _ => none)).store).1 = none := by
  refine ⟨?_, ?_, ?_, ?_⟩ <;> decide

/-! ## Delivery chunking -/

lemma zip_self_eq_map {α : Type} : ∀ l : List α, l.zip l = l.map fun a => (a, a)
  | [] => rfl
  | a :: r => by
    rw [List.zip_cons_cons, zip_self_eq_map r]
    rfl

lemma enum_map_range {α : Type} (p : Nat) (f : Nat → α) :
    ((List.range p).map f).enum = (List.range p).map fun i => (i, f i) := by
  rw [List.enum_eq_zip_range, List.length_map, List.length_range, List.zip_map_right,
    zip_self_eq_map, List.map_map]
  rfl

lemma joinSlices : ∀ (p : Nat) (s : List Char), s.length ≤ p * max_chunk_size →
    (((List.range p).map fun i =>
        (s.drop (i * max_chunk_size)).take max_chunk_size)).flatten = s := by
  intro p
  induction p with
  | zero =>
    intro s h
    simp only [Nat.zero_mul, Nat.le_zero, List.length_eq_zero] at h
    simp [h]
  | succ n ih =>
    intro s h
    rw [List.range_succ_eq_map, List.map_cons, List.map_map, List.flatten_cons]
    have hcomp : ∀ i ∈ List.range n,
        ((fun i => (s.drop (i * max_chunk_size)).take max_chunk_size) ∘ Nat.succ) i =
        (((s.drop max_chunk_size).drop (i * max_chunk_size)).take max_chunk_size) := by
      intro i _
      simp only [Function.comp_apply]
      rw [List.drop_drop]
      congr 2
      rw [Nat.succ_mul]
      ring
    rw [List.map_congr_left hcomp]
    rw [ih (s.drop max_chunk_size)
      (by simp only [List.length_drop, max_chunk_size] at h ⊢; omega)]
    simp [List.take_append_drop]

lemma le_num_parts_mul (n : Nat) : n ≤ num_parts n * max_chunk_size := by
  unfold num_parts max_chunk_size
  split <;> omega

lemma num_parts_pos {n : Nat} (h : max_chunk_size < n) : 0 < num_parts n := by
  unfold num_parts max_chunk_size at *
  split <;> omega

lemma send_report_small {content : List Char} (h : content.length ≤ max_chunk_size) :
    send_report_to_slack content = [header_message ++ content] := by
  unfold send_report_to_slack
  rw [if_pos h]

lemma send_report_big {content : List Char} (h : ¬ content.length ≤ max_chunk_size) :
    send_report_to_slack content = (List.range (num_parts content.length)).map fun i =>
      if i = 0 then
        header_message ++ ((content.drop (i * max_chunk_size)).take max_chunk_size)
      else partMarker (i + 1) (num_parts content.length) ++
        ((content.drop (i * max_chunk_size)).take max_chunk_size) := by
  unfold send_report_to_slack
  rw [if_neg h]

/-- C4: the delivery sink reassembles.  Stripping the injected header and
`[Part i/N]` markers from the delivered messages and concatenating them is
the identity on every report; the number of messages is 1 when the report
fits under the 35,000-character ceiling and `ceil(length/35000)` otherwise;
the first message always carries the header before the first 35,000
characters; a report of exactly 35,000 characters yields one message and one
of 35,001 characters yields two. -/
theorem chunking_reassembly :
    (∀ content : List Char, strippedConcat content = content) ∧
    (∀ content : List Char, (send_report_to_slack content).length =
        if content.length ≤ max_chunk_size then 1 else num_parts content.length) ∧
    (∀ content : List Char, (send_report_to_slack content).head? =
        some (header_message ++ content.take max_chunk_size)) ∧
    (send_report_to_slack (List.replicate 35000 'a')).length = 1 ∧
    (send_report_to_slack (List.replicate 35001 'a')).length = 2 := by
  have hlen : ∀ content : List Char, (send_report_to_slack content).length =
      if content.length ≤ max_chunk_size then 1 else num_parts content.length := by
    intro content
    by_cases h : content.length ≤ max_chunk_size
    · rw [send_report_small h, if_pos h]
      rfl
    · rw [send_report_big h, if_neg h]
      simp
  have hstrip : ∀ content : List Char, strippedConcat content = content := by
    intro content
    by_cases h : content.length ≤ max_chunk_size
    · unfold strippedConcat
      rw [send_report_small h]
      have hpre : chunkPrefixLen content.length 0 = header_message.length := by
        unfold chunkPrefixLen
        rw [if_pos (Or.inl h)]
      simp only [List.enum, List.enumFrom, List.map_cons, List.map_nil, hpre,
        List.flatten_cons, List.flatten_nil, List.append_nil]
      exact List.drop_left header_message content
    · unfold strippedConcat
      rw [send_report_big h, enum_map_range, List.map_map]
      have hfun : ∀ i ∈ List.range (num_parts content.length),
          ((fun pr : Nat × List Char => pr.2.drop (chunkPrefixLen content.length pr.1)) ∘
            fun i => (i, if i = 0 then
              header_message ++ ((content.drop (i * max_chunk_size)).take max_chunk_size)
            else partMarker (i + 1) (num_parts content.length) ++
              ((content.drop (i * max_chunk_size)).take max_chunk_size))) i =
          (content.drop (i * max_chunk_size)).take max_chunk_size := by
        intro i _
        simp only [Function.comp_apply]
        by_cases hi : i = 0
        · subst hi
          have hpre : chunkPrefixLen content.length 0 = header_message.length := by
            unfold chunkPrefixLen
            rw [if_pos (Or.inr rfl)]
          rw [if_pos rfl, hpre]
          exact List.drop_left _ _
        · have hpre : chunkPrefixLen content.length i =
              (partMarker (i + 1) (num_parts content.length)).length := by
            unfold chunkPrefixLen
            rw [if_neg (not_or.mpr ⟨h, hi⟩)]
          rw [if_neg hi, hpre]
          exact List.drop_left _ _
      rw [List.map_congr_left hfun]
      exact joinSlices (num_parts content.length) content (le_num_parts_mul content.length)
  have hhead : ∀ content : List Char, (send_report_to_slack content).head? =
      some (header_message ++ content.take max_chunk_size) := by
    intro content
    by_cases h : content.length ≤ max_chunk_size
    · rw [send_report_small h, List.take_of_length_le h]
      rfl
    · rw [send_report_big h]
      have hp : 0 < num_parts content.length := num_parts_pos (by omega)
      obtain ⟨q, hq⟩ : ∃ q, num_parts content.length = q + 1 :=
        ⟨num_parts content.length - 1, by omega⟩
      rw [hq, List.range_succ_eq_map, List.map_cons]
      simp
  refine ⟨hstrip, hlen, hhead, ?_, ?_⟩
  · rw [hlen]
    simp only [List.length_replicate]
    norm_num [max_chunk_size]
  · rw [hlen]
    have h1 : ¬ (List.replicate 35001 'a').length ≤ max_chunk_size := by
      simp only [List.length_replicate]
      norm_num [max_chunk_size]
    rw [if_neg h1]
    simp only [List.length_replicate]
    decide

end SlackDeepResearch
